import Mathlib

/-!
Shallow embedding of `wfwrc` (`src/lib.rs`), a lock-free `Arc`/`Weak`
reference-counting protocol with a bit-packed strong counter.

The `Block` state mirrors the heap block `ArcInner<T>`: the two raw `usize`
atomic counters, plus instrumentation counters recording how many times the
payload has been destroyed (`drop_inner`), how many times the block memory has
been freed (`dealloc`), and whether the process has aborted (refcount overflow
guard).  Counters are `Nat` reduced modulo `2^64` at every atomic
read-modify-write, matching `AtomicUsize` wrap-around on a 64-bit target.

Each Rust method is translated to a Lean function on `Block`.  A sequential
(operation-atomic) step relation over configurations — a block together with
the number of live `Arc` and bound `Weak` handles — models arbitrary sequences
of handle operations for the lifecycle claims.
-/

set_option maxRecDepth 4000
set_option maxHeartbeats 1600000

namespace Wfwrc

/-- `usize` modulus on a 64-bit target. -/
def USIZE_MOD : Nat := 2 ^ 64

/-- `const MAX_REFCOUNT: usize = isize::MAX as usize;` (lib.rs line 25). -/
def MAX_REFCOUNT : Nat := 2 ^ 63 - 1

/-- `const WEAK_EXIST: usize = 1;` (lib.rs line 151). -/
def WEAK_EXIST : Nat := 1

/-- `const CLOSED: usize = 2;` (lib.rs line 152). -/
def CLOSED : Nat := 2

/-- `const SINGLE_STRONG: usize = 4;` (lib.rs line 153). -/
def SINGLE_STRONG : Nat := 4

/-- `const SINGLE_WEAK: usize = 1;` (lib.rs line 154). -/
def SINGLE_WEAK : Nat := 1

/-- `const INVALID_WEAK_ADDR: usize = 1;` (lib.rs line 98). -/
def INVALID_WEAK_ADDR : Nat := 1

/-- Wrapping `usize` addition (`AtomicUsize::fetch_add`). -/
def wrapAdd (a n : Nat) : Nat := (a + n) % USIZE_MOD

/-- Wrapping `usize` subtraction (`AtomicUsize::fetch_sub`). -/
def wrapSub (a n : Nat) : Nat := (a + (USIZE_MOD - n)) % USIZE_MOD

/-- State of one `ArcInner<T>` heap block, instrumented with effect counters:
`destroyed` counts `drop_inner` calls, `freed` counts `dealloc` calls, and
`aborted` records that `abort()` ran (overflow guard). -/
structure Block where
  strong : Nat
  weak : Nat
  destroyed : Nat
  freed : Nat
  aborted : Bool
deriving DecidableEq, Repr

/-- `ArcInner::new` (lib.rs lines 157-163): strong = SINGLE_STRONG, weak = 0. -/
def ArcInner.new : Block :=
  { strong := SINGLE_STRONG, weak := 0, destroyed := 0, freed := 0, aborted := false }

/-- `ArcInner::drop_inner` (lib.rs lines 167-169): destroy the payload in place. -/
def drop_inner (b : Block) : Block := { b with destroyed := b.destroyed + 1 }

/-- `ArcInner::dealloc` (lib.rs lines 171-174): free the block memory. -/
def dealloc (b : Block) : Block := { b with freed := b.freed + 1 }

/-- `abort()` (overflow guard): the process dies; later code never runs. -/
def abortBlock (b : Block) : Block := { b with aborted := true }

/-- `ArcInner::acquire_strong_from_strong` (lib.rs lines 176-181):
`fetch_add(SINGLE_STRONG)` then abort if the pre-increment value exceeded
`MAX_REFCOUNT`. -/
def acquire_strong_from_strong (b : Block) : Block :=
  let old := b.strong
  let b1 := { b with strong := wrapAdd b.strong SINGLE_STRONG }
  if MAX_REFCOUNT < old then abortBlock b1 else b1

/-- `ArcInner::acquire_weak_from_weak` (lib.rs lines 236-241):
`weak.fetch_add(SINGLE_WEAK)` then abort on overflow. -/
def acquire_weak_from_weak (b : Block) : Block :=
  let old := b.weak
  let b1 := { b with weak := wrapAdd b.weak SINGLE_WEAK }
  if MAX_REFCOUNT < old then abortBlock b1 else b1

/-- `ArcInner::acquire_strong_from_weak` (lib.rs lines 183-199): speculative
`strong.fetch_add(SINGLE_STRONG)`; abort on overflow; `false` if `CLOSED` was
set in the pre-increment value; on the revive path (`old < SINGLE_STRONG`) one
extra weak unit is added (with its own overflow guard).  The `Bool` result in
an aborted state is never observed (the process is gone). -/
def acquire_strong_from_weak (b : Block) : Bool × Block :=
  let old := b.strong
  let b1 := { b with strong := wrapAdd b.strong SINGLE_STRONG }
  if MAX_REFCOUNT < old then (false, abortBlock b1)
  else if old &&& CLOSED ≠ 0 then (false, b1)
  else if old < SINGLE_STRONG then
    let old_weak := b1.weak
    let b2 := { b1 with weak := wrapAdd b1.weak SINGLE_WEAK }
    if MAX_REFCOUNT < old_weak then (true, abortBlock b2) else (true, b2)
  else (true, b1)

/-- `ArcInner::release_weak` (lib.rs lines 243-248):
`weak.fetch_sub(SINGLE_WEAK)`; if the pre-decrement value was exactly
`SINGLE_WEAK`, free the block. -/
def release_weak (b : Block) : Block :=
  let old := b.weak
  let b1 := { b with weak := wrapSub b.weak SINGLE_WEAK }
  if old = SINGLE_WEAK then dealloc b1 else b1

/-- The `compare_exchange(WEAK_EXIST, CLOSED)` on the strong counter
(lib.rs lines 213-216). -/
def strong_cas_close (b : Block) : Bool × Block :=
  if b.strong = WEAK_EXIST then (true, { b with strong := CLOSED }) else (false, b)

/-- Tail of `ArcInner::release_strong` (lib.rs lines 213-220), entered after
the decrement observed `old ≤ SINGLE_STRONG + WEAK_EXIST` with `WEAK_EXIST`
set: try the closing CAS; on success destroy the payload; either way release
the group weak unit.  Split out so the CAS can be analysed against any strong
counter state (a concurrent `upgrade` may change it before the CAS lands). -/
def release_strong_cont (b : Block) : Block :=
  match strong_cas_close b with
  | (true, b1) => release_weak (drop_inner b1)
  | (false, b1) => release_weak b1

/-- `ArcInner::release_strong` (lib.rs lines 201-221):
`strong.fetch_sub(SINGLE_STRONG)` decrement, early return when more than
one strong unit remained, immediate destroy+free when no weak ever existed,
otherwise the closing-CAS path. -/
def release_strong (b : Block) : Block :=
  let old := b.strong
  let b1 := { b with strong := wrapSub b.strong SINGLE_STRONG }
  if SINGLE_STRONG + WEAK_EXIST < old then b1
  else if old &&& WEAK_EXIST = 0 then dealloc (drop_inner b1)
  else release_strong_cont b1

/-- The weak-counter `compare_exchange(0, SINGLE_WEAK * 2)` in
`acquire_weak_from_strong` (lib.rs lines 225-228). -/
def weak_cas_init (b : Block) : Bool × Block :=
  if b.weak = 0 then (true, { b with weak := SINGLE_WEAK * 2 }) else (false, b)

/-- `ArcInner::acquire_weak_from_strong` (lib.rs lines 223-234), parametrised
by the value `loaded` returned by the initial `weak.load` (which, in a
concurrent run, may differ from the weak counter at CAS time): if the load saw
0 and the CAS from 0 to `SINGLE_WEAK * 2` succeeds, set `WEAK_EXIST` on the
strong counter; otherwise fall through to `acquire_weak_from_weak`. -/
def acquire_weak_from_strong (loaded : Nat) (b : Block) : Block :=
  if loaded = 0 then
    match weak_cas_init b with
    | (true, b1) => { b1 with strong := wrapAdd b1.strong WEAK_EXIST }
    | (false, b1) => acquire_weak_from_weak b1
  else acquire_weak_from_weak b

/-! Handle-level API.  A handle is modelled by its pointer value (a `Nat`
address); all bound handles of the single modelled block share its address,
and `INVALID_WEAK_ADDR = 1` is the dangling sentinel (an address `alloc` can
never return for `ArcInner`, whose alignment is at least 8). -/

/-- `Weak::new` (lib.rs lines 122-125): the dangling sentinel, no allocation,
no atomics (it is a `const fn` producing a constant pointer). -/
def Weak.new : Nat := INVALID_WEAK_ADDR

/-- `Weak::is_dangling` (lib.rs lines 129-131). -/
def Weak.is_dangling (w : Nat) : Bool := w == INVALID_WEAK_ADDR

/-- `<Weak as Clone>::clone` (lib.rs lines 110-119): skip the atomic when
dangling; always return a handle with the same pointer. -/
def Weak.clone (w : Nat) (b : Block) : Nat × Block :=
  if Weak.is_dangling w then (w, b) else (w, acquire_weak_from_weak b)

/-- `<Weak as Drop>::drop` (lib.rs lines 100-108): no-op when dangling. -/
def Weak.drop (w : Nat) (b : Block) : Block :=
  if Weak.is_dangling w then b else release_weak b

/-- `Weak::upgrade` (lib.rs lines 133-142): `None` when dangling, otherwise
governed by `acquire_strong_from_weak`; on success the new `Arc` holds the
same pointer. -/
def Weak.upgrade (w : Nat) (b : Block) : Option Nat × Block :=
  if Weak.is_dangling w then (none, b)
  else
    match acquire_strong_from_weak b with
    | (true, b1) => (some w, b1)
    | (false, b1) => (none, b1)

/-- `Arc::downgrade` (lib.rs lines 45-48): run `acquire_weak_from_strong`
(whose load, run sequentially, sees the current weak counter) and return a
`Weak` with the `Arc`'s own pointer. -/
def Arc.downgrade (a : Nat) (b : Block) : Nat × Block :=
  (a, acquire_weak_from_strong b.weak b)

/-- `<Arc as Drop>::drop` (lib.rs lines 59-65). -/
def Arc.dropHandle (b : Block) : Block := release_strong b

/-! Arithmetic bridges: numeric values of the constants and the two bit
masks used by `release_strong` / `acquire_strong_from_weak`. -/

theorem USIZE_MOD_eq : USIZE_MOD = 18446744073709551616 := by norm_num [USIZE_MOD]

theorem MAX_REFCOUNT_eq : MAX_REFCOUNT = 9223372036854775807 := by
  norm_num [MAX_REFCOUNT]

theorem land_one_eq (n : Nat) : n &&& WEAK_EXIST = n % 2 := Nat.and_one_is_mod n

theorem land_two_eq (n : Nat) : n &&& CLOSED = n / 2 % 2 * 2 := by
  have h := Nat.and_two_pow n 1
  rw [Nat.testBit_to_div_mod] at h
  rcases Nat.mod_two_eq_zero_or_one (n / 2) with h2 | h2 <;>
    simp [CLOSED, h2] at h ⊢ <;> omega

/-! Characterisations of each operation under explicit counter-range
hypotheses, in a form `omega` can consume. -/

theorem wrapAdd_eq (a n : Nat) (h : a + n < USIZE_MOD) : wrapAdd a n = a + n := by
  simp [wrapAdd, Nat.mod_eq_of_lt h]

theorem wrapSub_eq (a n : Nat) (h1 : n ≤ a) (h2 : a < USIZE_MOD) (h3 : n ≤ USIZE_MOD) :
    wrapSub a n = a - n := by
  unfold wrapSub
  have he : a + (USIZE_MOD - n) = (a - n) + USIZE_MOD := by omega
  rw [he, Nat.add_mod_right, Nat.mod_eq_of_lt (by omega)]

theorem lt_usize_of_le_max (a k : Nat) (h : a ≤ MAX_REFCOUNT) (hk : k ≤ 8) :
    a + k < USIZE_MOD := by
  rw [MAX_REFCOUNT_eq] at h
  rw [USIZE_MOD_eq]
  omega

theorem acquire_strong_from_strong_lo (b : Block) (h : b.strong ≤ MAX_REFCOUNT) :
    acquire_strong_from_strong b = { b with strong := b.strong + SINGLE_STRONG } := by
  simp only [acquire_strong_from_strong]
  rw [if_neg (by omega), wrapAdd_eq _ _ (lt_usize_of_le_max _ _ h (by norm_num [SINGLE_STRONG]))]

theorem acquire_strong_from_strong_hi (b : Block) (h : MAX_REFCOUNT < b.strong) :
    (acquire_strong_from_strong b).aborted = true := by
  simp only [acquire_strong_from_strong]
  rw [if_pos h]
  rfl

theorem acquire_weak_from_weak_lo (b : Block) (h : b.weak ≤ MAX_REFCOUNT) :
    acquire_weak_from_weak b = { b with weak := b.weak + SINGLE_WEAK } := by
  simp only [acquire_weak_from_weak]
  rw [if_neg (by omega), wrapAdd_eq _ _ (lt_usize_of_le_max _ _ h (by norm_num [SINGLE_WEAK]))]

theorem acquire_weak_from_weak_hi (b : Block) (h : MAX_REFCOUNT < b.weak) :
    (acquire_weak_from_weak b).aborted = true := by
  simp only [acquire_weak_from_weak]
  rw [if_pos h]
  rfl

theorem acquire_strong_from_weak_closed (b : Block) (h : b.strong ≤ MAX_REFCOUNT)
    (hc : 2 ≤ b.strong % 4) :
    acquire_strong_from_weak b = (false, { b with strong := b.strong + SINGLE_STRONG }) := by
  simp only [acquire_strong_from_weak]
  rw [if_neg (by omega), if_pos (by rw [land_two_eq]; omega),
    wrapAdd_eq _ _ (lt_usize_of_le_max _ _ h (by norm_num [SINGLE_STRONG]))]

theorem acquire_strong_from_weak_live (b : Block) (h : b.strong ≤ MAX_REFCOUNT)
    (hc : b.strong % 4 < 2) (hs : SINGLE_STRONG ≤ b.strong) :
    acquire_strong_from_weak b = (true, { b with strong := b.strong + SINGLE_STRONG }) := by
  simp only [acquire_strong_from_weak]
  rw [if_neg (by omega), if_neg (by rw [land_two_eq]; omega), if_neg (by omega),
    wrapAdd_eq _ _ (lt_usize_of_le_max _ _ h (by norm_num [SINGLE_STRONG]))]

theorem acquire_strong_from_weak_revive (b : Block) (h : b.strong ≤ MAX_REFCOUNT)
    (hc : b.strong % 4 < 2) (hs : b.strong < SINGLE_STRONG) (hw : b.weak ≤ MAX_REFCOUNT) :
    acquire_strong_from_weak b =
      (true, { b with strong := b.strong + SINGLE_STRONG, weak := b.weak + SINGLE_WEAK }) := by
  simp only [acquire_strong_from_weak]
  rw [if_neg (by omega), if_neg (by rw [land_two_eq]; omega), if_pos hs,
    wrapAdd_eq _ _ (lt_usize_of_le_max _ _ h (by norm_num [SINGLE_STRONG]))]
  rw [if_neg (by omega), wrapAdd_eq _ _ (lt_usize_of_le_max _ _ hw (by norm_num [SINGLE_WEAK]))]

theorem acquire_strong_from_weak_hi (b : Block) (h : MAX_REFCOUNT < b.strong) :
    (acquire_strong_from_weak b).2.aborted = true := by
  simp only [acquire_strong_from_weak]
  rw [if_pos h]
  rfl

theorem acquire_strong_from_weak_revive_hi (b : Block) (h : b.strong ≤ MAX_REFCOUNT)
    (hc : b.strong % 4 < 2) (hs : b.strong < SINGLE_STRONG) (hw : MAX_REFCOUNT < b.weak) :
    (acquire_strong_from_weak b).2.aborted = true := by
  simp only [acquire_strong_from_weak]
  rw [if_neg (by omega), if_neg (by rw [land_two_eq]; omega), if_pos hs, if_pos hw]
  rfl

theorem release_weak_last (b : Block) (h : b.weak = SINGLE_WEAK) :
    release_weak b = { b with weak := 0, freed := b.freed + 1 } := by
  simp only [release_weak]
  rw [if_pos h, h,
    wrapSub_eq _ _ (by norm_num) (by rw [USIZE_MOD_eq]; norm_num [SINGLE_WEAK]) (by rw [USIZE_MOD_eq]; norm_num [SINGLE_WEAK])]
  rfl

theorem release_weak_more (b : Block) (h : 2 ≤ b.weak) (hb : b.weak < USIZE_MOD) :
    release_weak b = { b with weak := b.weak - 1 } := by
  simp only [release_weak]
  rw [if_neg (by simp only [SINGLE_WEAK]; omega),
    wrapSub_eq _ _ (by simp only [SINGLE_WEAK]; omega) hb (by rw [USIZE_MOD_eq]; norm_num [SINGLE_WEAK])]
  rfl

theorem release_strong_many (b : Block) (h : SINGLE_STRONG + WEAK_EXIST < b.strong)
    (hb : b.strong < USIZE_MOD) :
    release_strong b = { b with strong := b.strong - SINGLE_STRONG } := by
  simp only [release_strong]
  rw [if_pos h,
    wrapSub_eq _ _ (by simp only [SINGLE_STRONG, WEAK_EXIST] at h ⊢; omega) hb
      (by rw [USIZE_MOD_eq]; norm_num [SINGLE_STRONG])]

theorem release_strong_noweak (b : Block) (h : b.strong = SINGLE_STRONG) :
    release_strong b =
      { b with strong := 0, destroyed := b.destroyed + 1, freed := b.freed + 1 } := by
  simp only [release_strong]
  rw [if_neg (by simp only [SINGLE_STRONG, WEAK_EXIST] at h ⊢; omega),
    if_pos (by rw [land_one_eq]; simp only [SINGLE_STRONG] at h; omega),
    wrapSub_eq _ _ (by simp only [SINGLE_STRONG] at h ⊢; omega)
      (by rw [USIZE_MOD_eq]; simp only [SINGLE_STRONG] at h; omega)
      (by rw [USIZE_MOD_eq]; norm_num [SINGLE_STRONG]), h]
  simp only [SINGLE_STRONG, dealloc, drop_inner]

theorem release_strong_close (b : Block) (h : b.strong = SINGLE_STRONG + WEAK_EXIST) :
    release_strong b =
      release_weak { b with strong := CLOSED, destroyed := b.destroyed + 1 } := by
  simp only [SINGLE_STRONG, WEAK_EXIST] at h
  simp only [release_strong]
  rw [if_neg (by simp only [SINGLE_STRONG, WEAK_EXIST]; omega),
    if_neg (by rw [land_one_eq]; omega),
    wrapSub_eq _ _ (by simp only [SINGLE_STRONG]; omega)
      (by rw [USIZE_MOD_eq]; omega) (by rw [USIZE_MOD_eq]; norm_num [SINGLE_STRONG]), h]
  simp only [release_strong_cont, strong_cas_close, SINGLE_STRONG, WEAK_EXIST, drop_inner]
  norm_num

theorem acquire_weak_from_strong_first (b : Block) (hw : b.weak = 0)
    (hs : b.strong + 1 < USIZE_MOD) :
    acquire_weak_from_strong b.weak b =
      { b with weak := SINGLE_WEAK * 2, strong := b.strong + WEAK_EXIST } := by
  simp only [acquire_weak_from_strong, weak_cas_init]
  rw [if_pos hw, if_pos hw]
  simp only [WEAK_EXIST]
  rw [wrapAdd_eq _ _ (by omega)]

theorem acquire_weak_from_strong_later (b : Block) (hw : b.weak ≠ 0)
    (hlo : b.weak ≤ MAX_REFCOUNT) :
    acquire_weak_from_strong b.weak b = { b with weak := b.weak + SINGLE_WEAK } := by
  simp only [acquire_weak_from_strong]
  rw [if_neg hw]
  exact acquire_weak_from_weak_lo b hlo

theorem acquire_weak_from_strong_later_hi (b : Block) (hw : b.weak ≠ 0)
    (hhi : MAX_REFCOUNT < b.weak) :
    (acquire_weak_from_strong b.weak b).aborted = true := by
  simp only [acquire_weak_from_strong]
  rw [if_neg hw]
  exact acquire_weak_from_weak_hi b hhi

/-! The lifecycle model: a configuration pairs the block state with the number
of live `Arc` handles and live bound `Weak` handles; a step applies one whole
handle operation (operation-atomic interleaving of the API calls listed in the
spec: clone, drop, downgrade, weak-clone, weak-drop, upgrade). -/

structure Config where
  blk : Block
  nStrong : Nat
  nWeak : Nat
deriving DecidableEq, Repr

/-- The configuration produced by `Arc::new`: a fresh block, one Strong
handle, no Weak handles. -/
def initConfig : Config := { blk := ArcInner.new, nStrong := 1, nWeak := 0 }

/-- One handle operation on the block.  Each operation requires a live handle
of the right kind and an un-aborted process. -/
inductive Step : Config → Config → Prop where
  | cloneS (c : Config) : c.blk.aborted = false → 0 < c.nStrong →
      Step c { blk := acquire_strong_from_strong c.blk, nStrong := c.nStrong + 1,
               nWeak := c.nWeak }
  | dropS (c : Config) : c.blk.aborted = false → 0 < c.nStrong →
      Step c { blk := release_strong c.blk, nStrong := c.nStrong - 1, nWeak := c.nWeak }
  | downgradeS (c : Config) : c.blk.aborted = false → 0 < c.nStrong →
      Step c { blk := acquire_weak_from_strong c.blk.weak c.blk, nStrong := c.nStrong,
               nWeak := c.nWeak + 1 }
  | cloneW (c : Config) : c.blk.aborted = false → 0 < c.nWeak →
      Step c { blk := acquire_weak_from_weak c.blk, nStrong := c.nStrong,
               nWeak := c.nWeak + 1 }
  | dropW (c : Config) : c.blk.aborted = false → 0 < c.nWeak →
      Step c { blk := release_weak c.blk, nStrong := c.nStrong, nWeak := c.nWeak - 1 }
  | upgradeOk (c : Config) (b' : Block) : c.blk.aborted = false → 0 < c.nWeak →
      acquire_strong_from_weak c.blk = (true, b') →
      Step c { blk := b', nStrong := c.nStrong + 1, nWeak := c.nWeak }
  | upgradeFail (c : Config) (b' : Block) : c.blk.aborted = false → 0 < c.nWeak →
      acquire_strong_from_weak c.blk = (false, b') →
      Step c { blk := b', nStrong := c.nStrong, nWeak := c.nWeak }

/-- Configurations reachable from `Arc::new` by handle operations. -/
inductive Reachable : Config → Prop where
  | init : Reachable initConfig
  | step {c c' : Config} : Reachable c → Step c c' → Reachable c'

/-- Abstract number of strong units encoded in the raw strong counter: once
`CLOSED` is set the logical count is zero (the residual units are never read
for correctness). -/
def strongCount (b : Block) : Nat := if 2 ≤ b.strong % 4 then 0 else b.strong / 4

/-- Lifecycle phase: `0` = Alive, `1` = Closing (payload destroyed, memory not
yet freed), `2` = Freed. -/
def phase (b : Block) : Nat :=
  if b.freed ≠ 0 then 2 else if b.destroyed ≠ 0 then 1 else 0

/-- Arithmetic part of the inductive lifecycle invariant, over the raw fields.
The four disjuncts are: Alive with no weak ever; Alive with the `WEAK_EXIST`
bit and group weak unit; Closing (payload destroyed, weak interest remains);
Freed. -/
def InvNat (strong weak destroyed freed nS nW : Nat) : Prop :=
  weak ≤ MAX_REFCOUNT + 1 ∧
  ((strong = 4 * nS ∧ 1 ≤ nS ∧ strong ≤ MAX_REFCOUNT + 4 ∧ weak = 0 ∧ nW = 0 ∧
      destroyed = 0 ∧ freed = 0) ∨
   (strong = 4 * nS + 1 ∧ 1 ≤ nS ∧ strong ≤ MAX_REFCOUNT + 5 ∧ weak = nW + 1 ∧
      destroyed = 0 ∧ freed = 0) ∨
   (strong % 4 = 2 ∧ strong ≤ MAX_REFCOUNT + 5 ∧ nS = 0 ∧ weak = nW ∧ 1 ≤ nW ∧
      destroyed = 1 ∧ freed = 0) ∨
   ((strong = 0 ∨ strong % 4 = 2) ∧ strong ≤ MAX_REFCOUNT + 5 ∧ nS = 0 ∧ nW = 0 ∧
      weak = 0 ∧ destroyed = 1 ∧ freed = 1))

/-- The inductive lifecycle invariant: either the process aborted (terminal),
or the counters are in one of the four protocol phases. -/
def Inv (c : Config) : Prop :=
  c.blk.aborted = true ∨
    (c.blk.aborted = false ∧
      InvNat c.blk.strong c.blk.weak c.blk.destroyed c.blk.freed c.nStrong c.nWeak)

theorem inv_init : Inv initConfig := by
  refine Or.inr ⟨rfl, ?_⟩
  show InvNat 4 0 0 0 1 0
  simp only [InvNat, MAX_REFCOUNT_eq]
  norm_num

theorem lt_usize_of_le_max_add (a k : Nat) (h : a ≤ MAX_REFCOUNT + k) (hk : k ≤ 16) :
    a < USIZE_MOD := by
  rw [MAX_REFCOUNT_eq] at h
  rw [USIZE_MOD_eq]
  omega

theorem inv_cloneS (c : Config) (h : Inv c) (hab : c.blk.aborted = false)
    (hn : 0 < c.nStrong) :
    Inv { blk := acquire_strong_from_strong c.blk, nStrong := c.nStrong + 1,
          nWeak := c.nWeak } := by
  rcases h with habt | ⟨hab0, hwb, hc1 | hc2 | hc3 | hc4⟩
  · simp [hab] at habt
  · by_cases hmax : c.blk.strong ≤ MAX_REFCOUNT
    · rw [acquire_strong_from_strong_lo c.blk hmax]
      refine Or.inr ⟨hab0, ?_, Or.inl ?_⟩
      all_goals try dsimp only
      all_goals try simp only [SINGLE_STRONG, SINGLE_WEAK, WEAK_EXIST, CLOSED, true_or, or_true, true_and, and_true]
      all_goals have hM := MAX_REFCOUNT_eq
      all_goals omega
    · exact Or.inl (acquire_strong_from_strong_hi c.blk (by omega))
  · by_cases hmax : c.blk.strong ≤ MAX_REFCOUNT
    · rw [acquire_strong_from_strong_lo c.blk hmax]
      refine Or.inr ⟨hab0, ?_, Or.inr (Or.inl ?_)⟩
      all_goals try dsimp only
      all_goals try simp only [SINGLE_STRONG, SINGLE_WEAK, WEAK_EXIST, CLOSED, true_or, or_true, true_and, and_true]
      all_goals have hM := MAX_REFCOUNT_eq
      all_goals omega
    · exact Or.inl (acquire_strong_from_strong_hi c.blk (by omega))
  · exact absurd hc3.2.2.1 (by omega)
  · exact absurd hc4.2.2.1 (by omega)

theorem inv_cloneW (c : Config) (h : Inv c) (hab : c.blk.aborted = false)
    (hn : 0 < c.nWeak) :
    Inv { blk := acquire_weak_from_weak c.blk, nStrong := c.nStrong,
          nWeak := c.nWeak + 1 } := by
  rcases h with habt | ⟨hab0, hwb, hc1 | hc2 | hc3 | hc4⟩
  · simp [hab] at habt
  · exact absurd hc1.2.2.2.2.1 (by omega)
  · by_cases hmax : c.blk.weak ≤ MAX_REFCOUNT
    · rw [acquire_weak_from_weak_lo c.blk hmax]
      refine Or.inr ⟨hab0, ?_, Or.inr (Or.inl ?_)⟩
      all_goals try dsimp only
      all_goals try simp only [SINGLE_STRONG, SINGLE_WEAK, WEAK_EXIST, CLOSED, true_or, or_true, true_and, and_true]
      all_goals have hM := MAX_REFCOUNT_eq
      all_goals omega
    · exact Or.inl (acquire_weak_from_weak_hi c.blk (by omega))
  · by_cases hmax : c.blk.weak ≤ MAX_REFCOUNT
    · rw [acquire_weak_from_weak_lo c.blk hmax]
      refine Or.inr ⟨hab0, ?_, Or.inr (Or.inr (Or.inl ?_))⟩
      all_goals try dsimp only
      all_goals try simp only [SINGLE_STRONG, SINGLE_WEAK, WEAK_EXIST, CLOSED, true_or, or_true, true_and, and_true]
      all_goals have hM := MAX_REFCOUNT_eq
      all_goals omega
    · exact Or.inl (acquire_weak_from_weak_hi c.blk (by omega))
  · exact absurd hc4.2.2.2.1 (by omega)

theorem inv_dropS (c : Config) (h : Inv c) (hab : c.blk.aborted = false)
    (hn : 0 < c.nStrong) :
    Inv { blk := release_strong c.blk, nStrong := c.nStrong - 1, nWeak := c.nWeak } := by
  rcases h with habt | ⟨hab0, hwb, hc1 | hc2 | hc3 | hc4⟩
  · simp [hab] at habt
  · obtain ⟨hs, hS1, hbound, hw0, hW0, hd, hf⟩ := hc1
    by_cases h1 : c.nStrong = 1
    · rw [release_strong_noweak c.blk (by simp only [SINGLE_STRONG]; omega)]
      refine Or.inr ⟨hab0, ?_, Or.inr (Or.inr (Or.inr ?_))⟩
      all_goals try dsimp only
      all_goals try simp only [SINGLE_STRONG, SINGLE_WEAK, WEAK_EXIST, CLOSED, true_or, or_true, true_and, and_true]
      all_goals have hM := MAX_REFCOUNT_eq
      all_goals omega
    · rw [release_strong_many c.blk (by simp only [SINGLE_STRONG, WEAK_EXIST]; omega)
        (lt_usize_of_le_max_add _ 4 hbound (by norm_num))]
      refine Or.inr ⟨hab0, ?_, Or.inl ?_⟩
      all_goals try dsimp only
      all_goals try simp only [SINGLE_STRONG, SINGLE_WEAK, WEAK_EXIST, CLOSED, true_or, or_true, true_and, and_true]
      all_goals have hM := MAX_REFCOUNT_eq
      all_goals omega
  · obtain ⟨hs, hS1, hbound, hwk, hd, hf⟩ := hc2
    by_cases h1 : c.nStrong = 1
    · rw [release_strong_close c.blk (by simp only [SINGLE_STRONG, WEAK_EXIST]; omega)]
      by_cases hW : c.nWeak = 0
      · rw [release_weak_last _
          (by show c.blk.weak = SINGLE_WEAK; simp only [SINGLE_WEAK]; omega)]
        refine Or.inr ⟨hab0, ?_, Or.inr (Or.inr (Or.inr ?_))⟩
        all_goals try dsimp only
        all_goals try simp only [SINGLE_STRONG, SINGLE_WEAK, WEAK_EXIST, CLOSED, true_or, or_true, true_and, and_true]
        all_goals have hM := MAX_REFCOUNT_eq
        all_goals omega
      · rw [release_weak_more _ (by show 2 ≤ c.blk.weak; omega)
          (by show c.blk.weak < USIZE_MOD; exact lt_usize_of_le_max_add _ 1 hwb (by norm_num))]
        refine Or.inr ⟨hab0, ?_, Or.inr (Or.inr (Or.inl ?_))⟩
        all_goals try dsimp only
        all_goals try simp only [SINGLE_STRONG, SINGLE_WEAK, WEAK_EXIST, CLOSED, true_or, or_true, true_and, and_true]
        all_goals have hM := MAX_REFCOUNT_eq
        all_goals omega
    · rw [release_strong_many c.blk (by simp only [SINGLE_STRONG, WEAK_EXIST]; omega)
        (lt_usize_of_le_max_add _ 5 hbound (by norm_num))]
      refine Or.inr ⟨hab0, ?_, Or.inr (Or.inl ?_)⟩
      all_goals try dsimp only
      all_goals try simp only [SINGLE_STRONG, SINGLE_WEAK, WEAK_EXIST, CLOSED, true_or, or_true, true_and, and_true]
      all_goals have hM := MAX_REFCOUNT_eq
      all_goals omega
  · exact absurd hc3.2.2.1 (by omega)
  · exact absurd hc4.2.2.1 (by omega)

theorem inv_downgradeS (c : Config) (h : Inv c) (hab : c.blk.aborted = false)
    (hn : 0 < c.nStrong) :
    Inv { blk := acquire_weak_from_strong c.blk.weak c.blk, nStrong := c.nStrong,
          nWeak := c.nWeak + 1 } := by
  rcases h with habt | ⟨hab0, hwb, hc1 | hc2 | hc3 | hc4⟩
  · simp [hab] at habt
  · obtain ⟨hs, hS1, hbound, hw0, hW0, hd, hf⟩ := hc1
    rw [acquire_weak_from_strong_first c.blk hw0
      (lt_usize_of_le_max_add _ 5 (by omega) (by norm_num))]
    refine Or.inr ⟨hab0, ?_, Or.inr (Or.inl ?_)⟩
    all_goals try dsimp only
    all_goals try simp only [SINGLE_STRONG, SINGLE_WEAK, WEAK_EXIST, CLOSED, true_or, or_true, true_and, and_true]
    all_goals have hM := MAX_REFCOUNT_eq
    all_goals omega
  · obtain ⟨hs, hS1, hbound, hwk, hd, hf⟩ := hc2
    by_cases hmax : c.blk.weak ≤ MAX_REFCOUNT
    · rw [acquire_weak_from_strong_later c.blk (by omega) hmax]
      refine Or.inr ⟨hab0, ?_, Or.inr (Or.inl ?_)⟩
      all_goals try dsimp only
      all_goals try simp only [SINGLE_STRONG, SINGLE_WEAK, WEAK_EXIST, CLOSED, true_or, or_true, true_and, and_true]
      all_goals have hM := MAX_REFCOUNT_eq
      all_goals omega
    · exact Or.inl (acquire_weak_from_strong_later_hi c.blk (by omega) (by omega))
  · exact absurd hc3.2.2.1 (by omega)
  · exact absurd hc4.2.2.1 (by omega)

theorem inv_dropW (c : Config) (h : Inv c) (hab : c.blk.aborted = false)
    (hn : 0 < c.nWeak) :
    Inv { blk := release_weak c.blk, nStrong := c.nStrong, nWeak := c.nWeak - 1 } := by
  rcases h with habt | ⟨hab0, hwb, hc1 | hc2 | hc3 | hc4⟩
  · simp [hab] at habt
  · exact absurd hc1.2.2.2.2.1 (by omega)
  · obtain ⟨hs, hS1, hbound, hwk, hd, hf⟩ := hc2
    rw [release_weak_more c.blk (by omega) (lt_usize_of_le_max_add _ 1 hwb (by norm_num))]
    refine Or.inr ⟨hab0, ?_, Or.inr (Or.inl ?_)⟩
    all_goals try dsimp only
    all_goals try simp only [SINGLE_STRONG, SINGLE_WEAK, WEAK_EXIST, CLOSED, true_or, or_true, true_and, and_true]
    all_goals have hM := MAX_REFCOUNT_eq
    all_goals omega
  · obtain ⟨hsm, hbound, hS0, hwk, hW1, hd, hf⟩ := hc3
    by_cases hW : c.nWeak = 1
    · rw [release_weak_last c.blk (by simp only [SINGLE_WEAK]; omega)]
      refine Or.inr ⟨hab0, ?_, Or.inr (Or.inr (Or.inr ?_))⟩
      all_goals try dsimp only
      all_goals try simp only [SINGLE_STRONG, SINGLE_WEAK, WEAK_EXIST, CLOSED, true_or, or_true, true_and, and_true]
      all_goals have hM := MAX_REFCOUNT_eq
      all_goals omega
    · rw [release_weak_more c.blk (by omega) (lt_usize_of_le_max_add _ 1 hwb (by norm_num))]
      refine Or.inr ⟨hab0, ?_, Or.inr (Or.inr (Or.inl ?_))⟩
      all_goals try dsimp only
      all_goals try simp only [SINGLE_STRONG, SINGLE_WEAK, WEAK_EXIST, CLOSED, true_or, or_true, true_and, and_true]
      all_goals have hM := MAX_REFCOUNT_eq
      all_goals omega
  · exact absurd hc4.2.2.2.1 (by omega)

theorem inv_upgradeOk (c : Config) (b' : Block) (h : Inv c)
    (hab : c.blk.aborted = false) (hn : 0 < c.nWeak)
    (heq : acquire_strong_from_weak c.blk = (true, b')) :
    Inv { blk := b', nStrong := c.nStrong + 1, nWeak := c.nWeak } := by
  rcases h with habt | ⟨hab0, hwb, hc1 | hc2 | hc3 | hc4⟩
  · simp [hab] at habt
  · exact absurd hc1.2.2.2.2.1 (by omega)
  · obtain ⟨hs, hS1, hbound, hwk, hd, hf⟩ := hc2
    by_cases hmax : c.blk.strong ≤ MAX_REFCOUNT
    · have hres := acquire_strong_from_weak_live c.blk hmax (by omega)
        (by simp only [SINGLE_STRONG]; omega)
      rw [heq] at hres
      simp only [Prod.mk.injEq] at hres
      obtain ⟨-, hres⟩ := hres
      subst hres
      refine Or.inr ⟨hab0, ?_, Or.inr (Or.inl ?_)⟩
      all_goals try dsimp only
      all_goals try simp only [SINGLE_STRONG, SINGLE_WEAK, WEAK_EXIST, CLOSED, true_or, or_true, true_and, and_true]
      all_goals have hM := MAX_REFCOUNT_eq
      all_goals omega
    · have hres := acquire_strong_from_weak_hi c.blk (by omega)
      rw [heq] at hres
      exact Or.inl hres
  · obtain ⟨hsm, hbound, hS0, hwk, hW1, hd, hf⟩ := hc3
    by_cases hmax : c.blk.strong ≤ MAX_REFCOUNT
    · have hres := acquire_strong_from_weak_closed c.blk hmax (by omega)
      rw [heq] at hres
      simp at hres
    · have hres := acquire_strong_from_weak_hi c.blk (by omega)
      rw [heq] at hres
      exact Or.inl hres
  · exact absurd hc4.2.2.2.1 (by omega)

theorem inv_upgradeFail (c : Config) (b' : Block) (h : Inv c)
    (hab : c.blk.aborted = false) (hn : 0 < c.nWeak)
    (heq : acquire_strong_from_weak c.blk = (false, b')) :
    Inv { blk := b', nStrong := c.nStrong, nWeak := c.nWeak } := by
  rcases h with habt | ⟨hab0, hwb, hc1 | hc2 | hc3 | hc4⟩
  · simp [hab] at habt
  · exact absurd hc1.2.2.2.2.1 (by omega)
  · obtain ⟨hs, hS1, hbound, hwk, hd, hf⟩ := hc2
    by_cases hmax : c.blk.strong ≤ MAX_REFCOUNT
    · have hres := acquire_strong_from_weak_live c.blk hmax (by omega)
        (by simp only [SINGLE_STRONG]; omega)
      rw [heq] at hres
      simp at hres
    · have hres := acquire_strong_from_weak_hi c.blk (by omega)
      rw [heq] at hres
      exact Or.inl hres
  · obtain ⟨hsm, hbound, hS0, hwk, hW1, hd, hf⟩ := hc3
    by_cases hmax : c.blk.strong ≤ MAX_REFCOUNT
    · have hres := acquire_strong_from_weak_closed c.blk hmax (by omega)
      rw [heq] at hres
      simp only [Prod.mk.injEq] at hres
      obtain ⟨-, hres⟩ := hres
      subst hres
      refine Or.inr ⟨hab0, ?_, Or.inr (Or.inr (Or.inl ?_))⟩
      all_goals try dsimp only
      all_goals try simp only [SINGLE_STRONG, SINGLE_WEAK, WEAK_EXIST, CLOSED, true_or, or_true, true_and, and_true]
      all_goals have hM := MAX_REFCOUNT_eq
      all_goals omega
    · have hres := acquire_strong_from_weak_hi c.blk (by omega)
      rw [heq] at hres
      exact Or.inl hres
  · exact absurd hc4.2.2.2.1 (by omega)

theorem inv_step {c c' : Config} (h : Inv c) (hs : Step c c') : Inv c' := by
  cases hs with
  | cloneS hab hn => exact inv_cloneS c h hab hn
  | dropS hab hn => exact inv_dropS c h hab hn
  | downgradeS hab hn => exact inv_downgradeS c h hab hn
  | cloneW hab hn => exact inv_cloneW c h hab hn
  | dropW hab hn => exact inv_dropW c h hab hn
  | upgradeOk b' hab hn heq => exact inv_upgradeOk c b' h hab hn heq
  | upgradeFail b' hab hn heq => exact inv_upgradeFail c b' h hab hn heq

theorem inv_reachable {c : Config} (h : Reachable c) : Inv c := by
  induction h with
  | init => exact inv_init
  | step _ hs ih => exact inv_step ih hs

/-! Unconditional effect equations for each operation: which counters it
writes and which fields it leaves untouched, valid on every branch (including
the overflow-abort branch). -/

theorem aSS_effects (b : Block) :
    (acquire_strong_from_strong b).strong = wrapAdd b.strong SINGLE_STRONG ∧
    (acquire_strong_from_strong b).weak = b.weak ∧
    (acquire_strong_from_strong b).destroyed = b.destroyed ∧
    (acquire_strong_from_strong b).freed = b.freed := by
  simp only [acquire_strong_from_strong, abortBlock]
  split_ifs <;> exact ⟨rfl, rfl, rfl, rfl⟩

theorem aWW_effects (b : Block) :
    (acquire_weak_from_weak b).strong = b.strong ∧
    (acquire_weak_from_weak b).weak = wrapAdd b.weak SINGLE_WEAK ∧
    (acquire_weak_from_weak b).destroyed = b.destroyed ∧
    (acquire_weak_from_weak b).freed = b.freed := by
  simp only [acquire_weak_from_weak, abortBlock]
  split_ifs <;> exact ⟨rfl, rfl, rfl, rfl⟩

theorem aSW_effects (b : Block) :
    (acquire_strong_from_weak b).2.strong = wrapAdd b.strong SINGLE_STRONG ∧
    (acquire_strong_from_weak b).2.destroyed = b.destroyed ∧
    (acquire_strong_from_weak b).2.freed = b.freed := by
  simp only [acquire_strong_from_weak, abortBlock]
  split_ifs <;> exact ⟨rfl, rfl, rfl⟩

theorem aSW_fst_closed (b : Block) (h : b.strong &&& CLOSED ≠ 0) :
    (acquire_strong_from_weak b).1 = false := by
  simp only [acquire_strong_from_weak, abortBlock]
  split_ifs <;> try rfl
  all_goals exact absurd h (by assumption)

theorem aWS_effects (loaded : Nat) (b : Block) :
    (acquire_weak_from_strong loaded b).destroyed = b.destroyed ∧
    (acquire_weak_from_strong loaded b).freed = b.freed := by
  by_cases h : loaded = 0
  · simp only [acquire_weak_from_strong, weak_cas_init]
    rw [if_pos h]
    by_cases h2 : b.weak = 0
    · rw [if_pos h2]
      exact ⟨rfl, rfl⟩
    · rw [if_neg h2]
      exact ⟨(aWW_effects b).2.2.1, (aWW_effects b).2.2.2⟩
  · simp only [acquire_weak_from_strong]
    rw [if_neg h]
    exact ⟨(aWW_effects b).2.2.1, (aWW_effects b).2.2.2⟩

theorem aWS_strong_later (loaded : Nat) (b : Block) (h : loaded ≠ 0) :
    (acquire_weak_from_strong loaded b).strong = b.strong := by
  simp only [acquire_weak_from_strong]
  rw [if_neg h]
  exact (aWW_effects b).1

theorem rW_effects (b : Block) :
    (release_weak b).strong = b.strong ∧ (release_weak b).destroyed = b.destroyed := by
  simp only [release_weak, dealloc]
  split_ifs <;> exact ⟨rfl, rfl⟩

/-- Effect of one step on the destruction/free instrumentation and the phase,
given the lifecycle invariant at the source configuration: the payload is
destroyed exactly at a step taking the strong count from positive to zero, the
memory is freed only with the payload destroyed and the weak counter at zero,
and the phase never decreases. -/
theorem step_effects {c c' : Config} (hi : Inv c) (hstep : Step c c') :
    (c.blk.destroyed < c'.blk.destroyed →
        c.blk.destroyed = 0 ∧ c'.blk.destroyed = 1 ∧
        1 ≤ strongCount c.blk ∧ strongCount c'.blk = 0) ∧
    (1 ≤ strongCount c.blk → strongCount c'.blk = 0 →
        c'.blk.destroyed = c.blk.destroyed + 1) ∧
    (c.blk.freed < c'.blk.freed →
        c.blk.freed = 0 ∧ c'.blk.freed = 1 ∧ c'.blk.destroyed = 1 ∧
        c'.blk.weak = 0) ∧
    phase c.blk ≤ phase c'.blk := by
  cases hstep with
  | cloneS hab hn =>
    rcases hi with habt | ⟨hab0, hwb, hcs⟩
    · simp [hab] at habt
    have hbound : c.blk.strong ≤ MAX_REFCOUNT + 5 := by
      rcases hcs with ⟨_, _, h, _⟩ | ⟨_, _, h, _⟩ | ⟨_, h, _⟩ | ⟨_, h, _⟩ <;> omega
    obtain ⟨h4, h1, h2, h3⟩ := aSS_effects c.blk
    rw [wrapAdd_eq _ _ (lt_usize_of_le_max_add _ 9 (by simp only [SINGLE_STRONG]; omega)
      (by norm_num))] at h4
    simp only [strongCount, phase]
    dsimp only
    rw [h1, h2, h3, h4]
    have hM := MAX_REFCOUNT_eq
    simp only [SINGLE_STRONG]
    split_ifs <;> ((try simp only [implies_true, true_and, and_true, true_or, or_true]); (first | trivial | omega))
  | dropS hab hn =>
    rcases hi with habt | ⟨hab0, hwb, hc1 | hc2 | hc3 | hc4⟩
    · simp [hab] at habt
    · obtain ⟨hs, hS1, hbound, hw0, hW0, hd, hf⟩ := hc1
      by_cases h1 : c.nStrong = 1
      · rw [release_strong_noweak c.blk (by simp only [SINGLE_STRONG]; omega)]
        simp only [strongCount, phase]
        dsimp only
        have hM := MAX_REFCOUNT_eq
        split_ifs <;> ((try simp only [implies_true, true_and, and_true, true_or, or_true]); (first | trivial | omega))
      · rw [release_strong_many c.blk (by simp only [SINGLE_STRONG, WEAK_EXIST]; omega)
          (lt_usize_of_le_max_add _ 4 hbound (by norm_num))]
        simp only [strongCount, phase]
        dsimp only
        have hM := MAX_REFCOUNT_eq
        simp only [SINGLE_STRONG]
        split_ifs <;> ((try simp only [implies_true, true_and, and_true, true_or, or_true]); (first | trivial | omega))
    · obtain ⟨hs, hS1, hbound, hwk, hd, hf⟩ := hc2
      by_cases h1 : c.nStrong = 1
      · rw [release_strong_close c.blk (by simp only [SINGLE_STRONG, WEAK_EXIST]; omega)]
        by_cases hW : c.nWeak = 0
        · rw [release_weak_last _
            (by show c.blk.weak = SINGLE_WEAK; simp only [SINGLE_WEAK]; omega)]
          simp only [strongCount, phase]
          dsimp only
          have hM := MAX_REFCOUNT_eq
          simp only [CLOSED]
          split_ifs <;> ((try simp only [implies_true, true_and, and_true, true_or, or_true]); (first | trivial | omega))
        · rw [release_weak_more _ (by show 2 ≤ c.blk.weak; omega)
            (by show c.blk.weak < USIZE_MOD; exact lt_usize_of_le_max_add _ 1 hwb (by norm_num))]
          simp only [strongCount, phase]
          dsimp only
          have hM := MAX_REFCOUNT_eq
          simp only [CLOSED]
          split_ifs <;> ((try simp only [implies_true, true_and, and_true, true_or, or_true]); (first | trivial | omega))
      · rw [release_strong_many c.blk (by simp only [SINGLE_STRONG, WEAK_EXIST]; omega)
          (lt_usize_of_le_max_add _ 5 hbound (by norm_num))]
        simp only [strongCount, phase]
        dsimp only
        have hM := MAX_REFCOUNT_eq
        simp only [SINGLE_STRONG]
        split_ifs <;> ((try simp only [implies_true, true_and, and_true, true_or, or_true]); (first | trivial | omega))
    · exact absurd hc3.2.2.1 (by omega)
    · exact absurd hc4.2.2.1 (by omega)
  | downgradeS hab hn =>
    rcases hi with habt | ⟨hab0, hwb, hc1 | hc2 | hc3 | hc4⟩
    · simp [hab] at habt
    · obtain ⟨hs, hS1, hbound, hw0, hW0, hd, hf⟩ := hc1
      rw [acquire_weak_from_strong_first c.blk hw0
        (lt_usize_of_le_max_add _ 5 (by omega) (by norm_num))]
      simp only [strongCount, phase]
      dsimp only
      have hM := MAX_REFCOUNT_eq
      simp only [WEAK_EXIST]
      split_ifs <;> ((try simp only [implies_true, true_and, and_true, true_or, or_true]); (first | trivial | omega))
    · obtain ⟨hs, hS1, hbound, hwk, hd, hf⟩ := hc2
      obtain ⟨hd2, hf2⟩ := aWS_effects c.blk.weak c.blk
      have hst := aWS_strong_later c.blk.weak c.blk (by omega)
      simp only [strongCount, phase]
      dsimp only
      rw [hd2, hf2, hst]
      have hM := MAX_REFCOUNT_eq
      split_ifs <;> ((try simp only [implies_true, true_and, and_true, true_or, or_true]); (first | trivial | omega))
    · exact absurd hc3.2.2.1 (by omega)
    · exact absurd hc4.2.2.1 (by omega)
  | cloneW hab hn =>
    obtain ⟨h1, h2, h3, h4⟩ := aWW_effects c.blk
    simp only [strongCount, phase]
    dsimp only
    rw [h1, h3, h4]
    split_ifs <;> ((try simp only [implies_true, true_and, and_true, true_or, or_true]); (first | trivial | omega))
  | dropW hab hn =>
    rcases hi with habt | ⟨hab0, hwb, hc1 | hc2 | hc3 | hc4⟩
    · simp [hab] at habt
    · exact absurd hc1.2.2.2.2.1 (by omega)
    · obtain ⟨hs, hS1, hbound, hwk, hd, hf⟩ := hc2
      rw [release_weak_more c.blk (by omega) (lt_usize_of_le_max_add _ 1 hwb (by norm_num))]
      simp only [strongCount, phase]
      dsimp only
      split_ifs <;> ((try simp only [implies_true, true_and, and_true, true_or, or_true]); (first | trivial | omega))
    · obtain ⟨hsm, hbound, hS0, hwk, hW1, hd, hf⟩ := hc3
      by_cases hW : c.nWeak = 1
      · rw [release_weak_last c.blk (by simp only [SINGLE_WEAK]; omega)]
        simp only [strongCount, phase]
        dsimp only
        split_ifs <;> ((try simp only [implies_true, true_and, and_true, true_or, or_true]); (first | trivial | omega))
      · rw [release_weak_more c.blk (by omega) (lt_usize_of_le_max_add _ 1 hwb (by norm_num))]
        simp only [strongCount, phase]
        dsimp only
        split_ifs <;> ((try simp only [implies_true, true_and, and_true, true_or, or_true]); (first | trivial | omega))
    · exact absurd hc4.2.2.2.1 (by omega)
  | upgradeOk b' hab hn heq =>
    rcases hi with habt | ⟨hab0, hwb, hcs⟩
    · simp [hab] at habt
    have hbound : c.blk.strong ≤ MAX_REFCOUNT + 5 := by
      rcases hcs with ⟨_, _, h, _⟩ | ⟨_, _, h, _⟩ | ⟨_, h, _⟩ | ⟨_, h, _⟩ <;> omega
    have hb' : b' = (acquire_strong_from_weak c.blk).2 := by rw [heq]
    subst hb'
    obtain ⟨h4, h2, h3⟩ := aSW_effects c.blk
    rw [wrapAdd_eq _ _ (lt_usize_of_le_max_add _ 9 (by simp only [SINGLE_STRONG]; omega)
      (by norm_num))] at h4
    simp only [strongCount, phase]
    dsimp only
    rw [h2, h3, h4]
    have hM := MAX_REFCOUNT_eq
    simp only [SINGLE_STRONG]
    split_ifs <;> ((try simp only [implies_true, true_and, and_true, true_or, or_true]); (first | trivial | omega))
  | upgradeFail b' hab hn heq =>
    rcases hi with habt | ⟨hab0, hwb, hcs⟩
    · simp [hab] at habt
    have hbound : c.blk.strong ≤ MAX_REFCOUNT + 5 := by
      rcases hcs with ⟨_, _, h, _⟩ | ⟨_, _, h, _⟩ | ⟨_, h, _⟩ | ⟨_, h, _⟩ <;> omega
    have hb' : b' = (acquire_strong_from_weak c.blk).2 := by rw [heq]
    subst hb'
    obtain ⟨h4, h2, h3⟩ := aSW_effects c.blk
    rw [wrapAdd_eq _ _ (lt_usize_of_le_max_add _ 9 (by simp only [SINGLE_STRONG]; omega)
      (by norm_num))] at h4
    simp only [strongCount, phase]
    dsimp only
    rw [h2, h3, h4]
    have hM := MAX_REFCOUNT_eq
    simp only [SINGLE_STRONG]
    split_ifs <;> ((try simp only [implies_true, true_and, and_true, true_or, or_true]); (first | trivial | omega))

/-- In a reachable un-aborted configuration, the `CLOSED` bit implies that no
Strong handle is live. -/
theorem closed_nStrong {c : Config} (hi : Inv c) (hab : c.blk.aborted = false)
    (hcl : c.blk.strong &&& CLOSED ≠ 0) : c.nStrong = 0 := by
  rw [land_two_eq] at hcl
  rcases hi with habt | ⟨hab0, hwb, hc1 | hc2 | hc3 | hc4⟩
  · simp [hab] at habt
  · obtain ⟨hs, -⟩ := hc1
    omega
  · obtain ⟨hs, -⟩ := hc2
    omega
  · exact hc3.2.2.1
  · exact hc4.2.2.1

/-- `release_strong_cont` written as an `if` on the CAS condition. -/
theorem release_strong_cont_eq (d : Block) :
    release_strong_cont d =
      if d.strong = WEAK_EXIST then release_weak (drop_inner { d with strong := CLOSED })
      else release_weak d := by
  by_cases h : d.strong = WEAK_EXIST
  · rw [if_pos h]
    simp only [release_strong_cont, strong_cas_close]
    rw [if_pos h]
  · rw [if_neg h]
    simp only [release_strong_cont, strong_cas_close]
    rw [if_neg h]

/-- C1: over every sequence of handle operations on a Block, modelled by the
step relation `Step` from the `Arc::new` configuration: the payload is
destroyed at most once, and a step destroys it exactly when it takes the
abstract strong count from positive to zero (its first arrival at zero, since
the destruction count was zero before); the memory is freed at most once and
only in a step that leaves the payload destroyed and the weak counter at
zero; and the Alive → Closing → Freed phase index never decreases along any
step, so no phase is ever re-entered. -/
theorem c1_lifecycle :
    (∀ c : Config, Reachable c → c.blk.aborted = false →
        c.blk.destroyed ≤ 1 ∧ c.blk.freed ≤ 1) ∧
    (∀ c c' : Config, Reachable c → Step c c' →
        (c.blk.destroyed < c'.blk.destroyed →
            c.blk.destroyed = 0 ∧ c'.blk.destroyed = 1 ∧
            1 ≤ strongCount c.blk ∧ strongCount c'.blk = 0) ∧
        (1 ≤ strongCount c.blk → strongCount c'.blk = 0 →
            c'.blk.destroyed = c.blk.destroyed + 1) ∧
        (c.blk.freed < c'.blk.freed →
            c.blk.freed = 0 ∧ c'.blk.freed = 1 ∧ c'.blk.destroyed = 1 ∧
            c'.blk.weak = 0) ∧
        phase c.blk ≤ phase c'.blk) := by
  constructor
  · intro c hr hab
    have hi := inv_reachable hr
    rcases hi with habt | ⟨hab0, hwb, hcs⟩
    · simp [hab] at habt
    rcases hcs with ⟨-, -, -, -, -, hd, hf⟩ | ⟨-, -, -, -, hd, hf⟩ |
      ⟨-, -, -, -, -, hd, hf⟩ | ⟨-, -, -, -, -, hd, hf⟩ <;> omega
  · intro c c' hr hstep
    exact step_effects (inv_reachable hr) hstep

/-- Witness for `c1_lifecycle`: the initial configuration and its first clone
step. -/
theorem c1_lifecycle_witness :
    initConfig.blk.destroyed ≤ 1 ∧
    phase initConfig.blk ≤ phase (acquire_strong_from_strong initConfig.blk) :=
  ⟨(c1_lifecycle.1 initConfig Reachable.init rfl).1,
   (c1_lifecycle.2 initConfig _ Reachable.init
      (Step.cloneS initConfig rfl (by decide))).2.2.2⟩

/-- C10: in every reachable un-aborted configuration, the `CLOSED` bit is set
only when no live Strong handle exists; hence whenever a Strong handle is
live — so a drop's `fetch_sub` would observe the current counter as `old` —
the `CLOSED` bit is clear, and the early-return test
`SINGLE_STRONG + WEAK_EXIST < old` holds exactly when the counter encodes at
least two strong units, equivalently when at least two Strong handles are
live. -/
theorem c10_closed_counts :
    ∀ c : Config, Reachable c → c.blk.aborted = false →
      (c.blk.strong &&& CLOSED ≠ 0 → c.nStrong = 0) ∧
      (0 < c.nStrong →
        c.blk.strong &&& CLOSED = 0 ∧
        (SINGLE_STRONG + WEAK_EXIST < c.blk.strong ↔ 2 ≤ c.blk.strong / 4) ∧
        (SINGLE_STRONG + WEAK_EXIST < c.blk.strong ↔ 2 ≤ c.nStrong)) := by
  intro c hr hab
  have hi := inv_reachable hr
  refine ⟨closed_nStrong hi hab, ?_⟩
  intro hS
  rcases hi with habt | ⟨hab0, hwb, hc1 | hc2 | hc3 | hc4⟩
  · simp [hab] at habt
  · obtain ⟨hs, hS1, hbound, -⟩ := hc1
    refine ⟨by rw [land_two_eq]; omega, ?_, ?_⟩ <;>
      (simp only [SINGLE_STRONG, WEAK_EXIST]; omega)
  · obtain ⟨hs, hS1, hbound, -⟩ := hc2
    refine ⟨by rw [land_two_eq]; omega, ?_, ?_⟩ <;>
      (simp only [SINGLE_STRONG, WEAK_EXIST]; omega)
  · exact absurd hc3.2.2.1 (by omega)
  · exact absurd hc4.2.2.1 (by omega)

/-- Witness for `c10_closed_counts`: the initial configuration. -/
theorem c10_closed_counts_witness :
    initConfig.blk.strong &&& CLOSED = 0 :=
  (((c10_closed_counts initConfig Reachable.init rfl).2) (by decide)).1

/-- C7: once `CLOSED` is set, `upgrade` from a bound Weak returns `None` while
leaving the strong counter permanently incremented by one strong unit and
every other field unchanged; and along every subsequent step of a reachable
configuration the strong counter never decreases and `CLOSED` never clears —
no code path applies a corrective decrement. -/
theorem c7_closed_upgrade :
    (∀ (w : Nat) (b : Block), Weak.is_dangling w = false →
        b.strong &&& CLOSED ≠ 0 → b.strong ≤ MAX_REFCOUNT →
        Weak.upgrade w b = (none, { b with strong := b.strong + SINGLE_STRONG })) ∧
    (∀ c c' : Config, Reachable c → Step c c' → c.blk.strong &&& CLOSED ≠ 0 →
        c.blk.strong ≤ c'.blk.strong ∧ c'.blk.strong &&& CLOSED ≠ 0) := by
  constructor
  · intro w b hw hcl hmax
    have hres := acquire_strong_from_weak_closed b hmax (by rw [land_two_eq] at hcl; omega)
    simp [Weak.upgrade, hw, hres]
  · intro c c' hr hstep hcl
    have hi := inv_reachable hr
    cases hstep with
    | cloneS hab hn => exact absurd (closed_nStrong hi hab hcl) (by omega)
    | dropS hab hn => exact absurd (closed_nStrong hi hab hcl) (by omega)
    | downgradeS hab hn => exact absurd (closed_nStrong hi hab hcl) (by omega)
    | cloneW hab hn =>
      obtain ⟨h1, -, -, -⟩ := aWW_effects c.blk
      dsimp only
      rw [h1]
      exact ⟨le_refl _, hcl⟩
    | dropW hab hn =>
      obtain ⟨h1, -⟩ := rW_effects c.blk
      dsimp only
      rw [h1]
      exact ⟨le_refl _, hcl⟩
    | upgradeOk b' hab hn heq =>
      have hfst := aSW_fst_closed c.blk hcl
      rw [heq] at hfst
      simp at hfst
    | upgradeFail b' hab hn heq =>
      have hb' : b' = (acquire_strong_from_weak c.blk).2 := by rw [heq]
      subst hb'
      obtain ⟨h4, -, -⟩ := aSW_effects c.blk
      rcases hi with habt | ⟨hab0, hwb, hcs⟩
      · simp [hab] at habt
      have hbound : c.blk.strong ≤ MAX_REFCOUNT + 5 := by
        rcases hcs with ⟨-, -, h, -⟩ | ⟨-, -, h, -⟩ | ⟨-, h, -⟩ | ⟨-, h, -⟩ <;> omega
      rw [wrapAdd_eq _ _ (lt_usize_of_le_max_add _ 9 (by simp only [SINGLE_STRONG]; omega)
        (by norm_num))] at h4
      dsimp only
      rw [h4]
      rw [land_two_eq] at hcl ⊢
      exact ⟨by simp only [SINGLE_STRONG]; omega, by simp only [SINGLE_STRONG]; omega⟩

/-- A closed configuration reachable in two steps: downgrade then drop the
only Strong handle. -/
theorem closedConfig_reachable : Reachable ⟨⟨2, 1, 1, 0, false⟩, 0, 1⟩ := by
  have h1 : Reachable ⟨⟨5, 2, 0, 0, false⟩, 1, 1⟩ :=
    Reachable.step Reachable.init (Step.downgradeS initConfig rfl (by decide))
  exact Reachable.step h1 (Step.dropS ⟨⟨5, 2, 0, 0, false⟩, 1, 1⟩ rfl (by decide))

/-- Witness for `c7_closed_upgrade`: a concrete closed block and a weak-clone
step from the closed configuration. -/
theorem c7_closed_upgrade_witness :
    Weak.upgrade 8 ⟨2, 1, 1, 0, false⟩ = (none, ⟨6, 1, 1, 0, false⟩) ∧
    (2 : Nat) ≤ (acquire_weak_from_weak ⟨2, 1, 1, 0, false⟩).strong :=
  ⟨c7_closed_upgrade.1 8 ⟨2, 1, 1, 0, false⟩ (by decide) (by decide) (by decide),
   (c7_closed_upgrade.2 ⟨⟨2, 1, 1, 0, false⟩, 0, 1⟩ _ closedConfig_reachable
      (Step.cloneW ⟨⟨2, 1, 1, 0, false⟩, 0, 1⟩ rfl (by decide)) (by decide)).1⟩

/-- C2: when the drop of a Strong handle observes a pre-decrement value with
`WEAK_EXIST` set and at most one strong unit remaining, it takes the closing
path: a single CAS of the strong counter from exactly `WEAK_EXIST` to exactly
`CLOSED` (evaluated against whatever strong-counter state `d` holds when the
CAS runs); the payload is destroyed precisely when the CAS succeeds, and in
both outcomes exactly one weak unit is released, which frees the block
precisely when it was the last weak unit. -/
theorem c2_closing_cas :
    ∀ b : Block, b.strong &&& WEAK_EXIST ≠ 0 →
      ¬(SINGLE_STRONG + WEAK_EXIST < b.strong) →
      release_strong b =
        release_strong_cont { b with strong := wrapSub b.strong SINGLE_STRONG } ∧
      ∀ d : Block,
        ((strong_cas_close d).1 = true ↔ d.strong = WEAK_EXIST) ∧
        (release_strong_cont d).destroyed =
          (if d.strong = WEAK_EXIST then d.destroyed + 1 else d.destroyed) ∧
        (release_strong_cont d).strong =
          (if d.strong = WEAK_EXIST then CLOSED else d.strong) ∧
        (release_strong_cont d).weak = wrapSub d.weak SINGLE_WEAK ∧
        (release_strong_cont d).freed =
          (if d.weak = SINGLE_WEAK then d.freed + 1 else d.freed) := by
  intro b h1 h2
  constructor
  · simp only [release_strong]
    rw [if_neg h2, if_neg h1]
  · intro d
    rw [release_strong_cont_eq]
    refine ⟨?_, ?_, ?_, ?_, ?_⟩ <;>
      (by_cases hd : d.strong = WEAK_EXIST <;>
        by_cases hw : d.weak = SINGLE_WEAK <;>
        simp [release_weak, drop_inner, dealloc, strong_cas_close, hd, hw])

/-- Witness for `c2_closing_cas`: a block holding one strong unit plus
`WEAK_EXIST`, and a CAS state where the CAS succeeds. -/
theorem c2_closing_cas_witness :
    release_strong ⟨5, 1, 0, 0, false⟩ = release_strong_cont ⟨1, 1, 0, 0, false⟩ ∧
    (release_strong_cont ⟨1, 1, 0, 0, false⟩).destroyed = 1 :=
  ⟨(c2_closing_cas ⟨5, 1, 0, 0, false⟩ (by decide) (by decide)).1,
   ((c2_closing_cas ⟨5, 1, 0, 0, false⟩ (by decide) (by decide)).2
      ⟨1, 1, 0, 0, false⟩).2.1⟩

/-- C5: when the drop of a Strong handle observes a pre-decrement value with
at most one strong unit and the `WEAK_EXIST` bit clear, the same call destroys
the payload and frees the block immediately; the weak counter is untouched and
no CAS runs — the strong counter only carries the decrement. -/
theorem c5_last_no_weak :
    ∀ b : Block, ¬(SINGLE_STRONG + WEAK_EXIST < b.strong) →
      b.strong &&& WEAK_EXIST = 0 → SINGLE_STRONG ≤ b.strong →
      release_strong b =
        { b with
            strong := b.strong - SINGLE_STRONG
            destroyed := b.destroyed + 1
            freed := b.freed + 1 } := by
  intro b h1 h2 h3
  have hs : b.strong = SINGLE_STRONG := by
    rw [land_one_eq] at h2
    simp only [SINGLE_STRONG, WEAK_EXIST] at *
    omega
  rw [release_strong_noweak b hs, hs]
  rfl

/-- Witness for `c5_last_no_weak`: the last Strong handle of a block that
never had a Weak. -/
theorem c5_last_no_weak_witness :
    release_strong ⟨4, 0, 0, 0, false⟩ = ⟨0, 0, 1, 1, false⟩ :=
  c5_last_no_weak ⟨4, 0, 0, 0, false⟩ (by decide) (by decide) (by decide)

/-- C9: when the drop of a Strong handle observes a pre-decrement value with
more than one strong unit, the only state change is the strong-counter
decrement: payload, block memory and weak counter are untouched. -/
theorem c9_not_last :
    ∀ b : Block, SINGLE_STRONG + WEAK_EXIST < b.strong → b.strong < USIZE_MOD →
      release_strong b = { b with strong := b.strong - SINGLE_STRONG } :=
  fun b h hb => release_strong_many b h hb

/-- Witness for `c9_not_last`: a block with two strong units and the
`WEAK_EXIST` bit. -/
theorem c9_not_last_witness :
    release_strong ⟨9, 1, 0, 0, false⟩ = ⟨5, 1, 0, 0, false⟩ :=
  c9_not_last ⟨9, 1, 0, 0, false⟩ (by decide) (by norm_num [USIZE_MOD])

/-- C3: `upgrade` on a bound Weak adds one strong unit and inspects the
pre-increment value: if `CLOSED` was set it returns `None` (the increment
remaining); otherwise it returns a Strong handle carrying the same pointer,
and exactly when the pre-increment value held zero strong units it also adds
one extra weak unit before returning.  The range hypotheses rule out the
overflow abort. -/
theorem c3_upgrade :
    ∀ (w : Nat) (b : Block), Weak.is_dangling w = false →
      b.strong ≤ MAX_REFCOUNT → b.weak ≤ MAX_REFCOUNT →
      (Weak.upgrade w b).2.strong = b.strong + SINGLE_STRONG ∧
      (b.strong &&& CLOSED ≠ 0 →
        Weak.upgrade w b = (none, { b with strong := b.strong + SINGLE_STRONG })) ∧
      (b.strong &&& CLOSED = 0 →
        (Weak.upgrade w b).1 = some w ∧
        (b.strong < SINGLE_STRONG →
          (Weak.upgrade w b).2 =
            { b with
                strong := b.strong + SINGLE_STRONG
                weak := b.weak + SINGLE_WEAK }) ∧
        (SINGLE_STRONG ≤ b.strong →
          (Weak.upgrade w b).2 = { b with strong := b.strong + SINGLE_STRONG })) := by
  intro w b hw hs hwk
  by_cases hcl : 2 ≤ b.strong % 4
  · have hres := acquire_strong_from_weak_closed b hs hcl
    refine ⟨?_, fun _ => ?_, fun hc0 => ?_⟩
    · simp [Weak.upgrade, hw, hres]
    · simp [Weak.upgrade, hw, hres]
    · rw [land_two_eq] at hc0
      omega
  · by_cases hlt : b.strong < SINGLE_STRONG
    · have hres := acquire_strong_from_weak_revive b hs (by omega) hlt hwk
      refine ⟨?_, fun hc => ?_, fun hc0 => ⟨?_, fun _ => ?_, fun hge => ?_⟩⟩
      · simp [Weak.upgrade, hw, hres]
      · rw [land_two_eq] at hc
        omega
      · simp [Weak.upgrade, hw, hres]
      · simp [Weak.upgrade, hw, hres]
      · exact absurd hge (by omega)
    · have hres := acquire_strong_from_weak_live b hs (by omega) (by omega)
      refine ⟨?_, fun hc => ?_, fun hc0 => ⟨?_, fun hlt2 => ?_, fun _ => ?_⟩⟩
      · simp [Weak.upgrade, hw, hres]
      · rw [land_two_eq] at hc
        omega
      · simp [Weak.upgrade, hw, hres]
      · exact absurd hlt2 hlt
      · simp [Weak.upgrade, hw, hres]

/-- Witness for `c3_upgrade`: a live upgrade and a weak-only revival. -/
theorem c3_upgrade_witness :
    (Weak.upgrade 8 ⟨4, 0, 0, 0, false⟩).1 = some 8 ∧
    (Weak.upgrade 8 ⟨1, 1, 0, 0, false⟩).2 = ⟨5, 2, 0, 0, false⟩ :=
  ⟨((c3_upgrade 8 ⟨4, 0, 0, 0, false⟩ (by decide) (by decide) (by decide)).2.2
      (by decide)).1,
   (((c3_upgrade 8 ⟨1, 1, 0, 0, false⟩ (by decide) (by decide) (by decide)).2.2
      (by decide)).2.1 (by decide))⟩

/-- C4: `downgrade` is driven by the initial `weak.load` and the CAS from 0 to
two weak units: the first downgrade (load saw 0 and the CAS succeeds) writes
two weak units and sets `WEAK_EXIST` on the strong counter in one step; a
downgrade whose load saw a nonzero counter, or whose CAS lost, adds exactly
one weak unit and leaves the strong counter alone; in every case the returned
Weak handle is bound and carries the Arc's own pointer. -/
theorem c4_downgrade :
    ∀ (a loaded : Nat) (b : Block), a ≠ INVALID_WEAK_ADDR →
      b.weak ≤ MAX_REFCOUNT → b.strong + WEAK_EXIST < USIZE_MOD →
      (loaded = 0 ∧ b.weak = 0 →
        acquire_weak_from_strong loaded b =
          { b with
              weak := SINGLE_WEAK * 2
              strong := b.strong + WEAK_EXIST }) ∧
      (loaded = 0 ∧ b.weak ≠ 0 →
        acquire_weak_from_strong loaded b = { b with weak := b.weak + SINGLE_WEAK }) ∧
      (loaded ≠ 0 →
        acquire_weak_from_strong loaded b = { b with weak := b.weak + SINGLE_WEAK }) ∧
      (Arc.downgrade a b).1 = a ∧
      Weak.is_dangling (Arc.downgrade a b).1 = false := by
  intro a loaded b ha hwk hsb
  refine ⟨?_, ?_, ?_, rfl, ?_⟩
  · rintro ⟨hl, hw⟩
    subst hl
    simp only [acquire_weak_from_strong, weak_cas_init]
    rw [if_pos trivial, if_pos hw]
    dsimp only
    rw [wrapAdd_eq _ _ hsb]
  · rintro ⟨hl, hw⟩
    subst hl
    simp only [acquire_weak_from_strong, weak_cas_init]
    rw [if_pos trivial, if_neg hw]
    dsimp only
    exact acquire_weak_from_weak_lo b hwk
  · intro hl
    simp only [acquire_weak_from_strong]
    rw [if_neg hl]
    exact acquire_weak_from_weak_lo b hwk
  · simp only [Arc.downgrade, Weak.is_dangling]
    exact beq_eq_false_iff_ne.mpr ha

/-- Witness for `c4_downgrade`: a first downgrade on a fresh block. -/
theorem c4_downgrade_witness :
    acquire_weak_from_strong 0 ⟨4, 0, 0, 0, false⟩ = ⟨5, 2, 0, 0, false⟩ ∧
    Weak.is_dangling (Arc.downgrade 8 ⟨4, 0, 0, 0, false⟩).1 = false :=
  ⟨(c4_downgrade 8 0 ⟨4, 0, 0, 0, false⟩ (by decide) (by decide)
      (by norm_num [USIZE_MOD, WEAK_EXIST])).1 ⟨rfl, by decide⟩,
   (c4_downgrade 8 0 ⟨4, 0, 0, 0, false⟩ (by decide) (by decide)
      (by norm_num [USIZE_MOD, WEAK_EXIST])).2.2.2.2⟩

/-- C6: every handle-creating increment (Strong clone, Weak clone, upgrade's
strong increment, and upgrade's revive-path weak increment) aborts the process
when the pre-increment value exceeds `isize::MAX`; below the limit the
increment cannot wrap (`old + unit < 2^64`) and no abort happens — overflow is
never returned as a value. -/
theorem c6_overflow_abort :
    ∀ b : Block,
      (MAX_REFCOUNT < b.strong → (acquire_strong_from_strong b).aborted = true) ∧
      (b.strong ≤ MAX_REFCOUNT →
        (acquire_strong_from_strong b).aborted = b.aborted ∧
        (acquire_strong_from_strong b).strong = b.strong + SINGLE_STRONG ∧
        b.strong + SINGLE_STRONG < USIZE_MOD) ∧
      (MAX_REFCOUNT < b.weak → (acquire_weak_from_weak b).aborted = true) ∧
      (b.weak ≤ MAX_REFCOUNT →
        (acquire_weak_from_weak b).aborted = b.aborted ∧
        (acquire_weak_from_weak b).weak = b.weak + SINGLE_WEAK ∧
        b.weak + SINGLE_WEAK < USIZE_MOD) ∧
      (MAX_REFCOUNT < b.strong → (acquire_strong_from_weak b).2.aborted = true) ∧
      (b.strong ≤ MAX_REFCOUNT → b.strong &&& CLOSED = 0 → b.strong < SINGLE_STRONG →
        MAX_REFCOUNT < b.weak → (acquire_strong_from_weak b).2.aborted = true) := by
  intro b
  refine ⟨acquire_strong_from_strong_hi b, fun h => ?_, acquire_weak_from_weak_hi b,
    fun h => ?_, acquire_strong_from_weak_hi b, fun h hc hlt hw => ?_⟩
  · rw [acquire_strong_from_strong_lo b h]
    exact ⟨rfl, rfl, lt_usize_of_le_max_add _ 4 (by simp only [SINGLE_STRONG]; omega)
      (by norm_num)⟩
  · rw [acquire_weak_from_weak_lo b h]
    exact ⟨rfl, rfl, lt_usize_of_le_max_add _ 1 (by simp only [SINGLE_WEAK]; omega)
      (by norm_num)⟩
  · exact acquire_strong_from_weak_revive_hi b h (by rw [land_two_eq] at hc; omega) hlt hw

/-- Witness for `c6_overflow_abort`: an overflowing and a small strong
counter. -/
theorem c6_overflow_abort_witness :
    (acquire_strong_from_strong ⟨9223372036854775808, 0, 0, 0, false⟩).aborted = true ∧
    (acquire_strong_from_strong ⟨4, 0, 0, 0, false⟩).strong = 8 :=
  ⟨(c6_overflow_abort ⟨9223372036854775808, 0, 0, 0, false⟩).1
      (by norm_num [MAX_REFCOUNT]),
   ((c6_overflow_abort ⟨4, 0, 0, 0, false⟩).2.1 (by norm_num [MAX_REFCOUNT])).2.1⟩

/-- C8: the dangling Weak constructor produces the sentinel address without
touching any block; on a dangling handle, `upgrade` returns `None`, `clone`
returns the same sentinel, `drop` does nothing, and none of the three
operations changes the block state. -/
theorem c8_dangling :
    Weak.is_dangling Weak.new = true ∧
    ∀ (w : Nat) (b : Block), Weak.is_dangling w = true →
      Weak.upgrade w b = (none, b) ∧ Weak.clone w b = (w, b) ∧ Weak.drop w b = b := by
  refine ⟨rfl, fun w b hw => ⟨?_, ?_, ?_⟩⟩
  · simp [Weak.upgrade, hw]
  · simp [Weak.clone, hw]
  · simp [Weak.drop, hw]

/-- Witness for `c8_dangling`: the sentinel handle over a live block. -/
theorem c8_dangling_witness :
    Weak.upgrade Weak.new ⟨4, 0, 0, 0, false⟩ = (none, ⟨4, 0, 0, 0, false⟩) :=
  (c8_dangling.2 Weak.new ⟨4, 0, 0, 0, false⟩ (by decide)).1

end Wfwrc
